import Mathlib

/-!
Shallow embedding of `merge_logs/formats.py` (repository `cipollone/merge-log`).

The module under verification contains four merge strategies
(`merge_format0` … `merge_format3`) and a recursive nested-path lookup
(`get_nested`).  Python dictionaries are embedded as association lists
(`Dict K V := List (K × V)`, first binding wins on lookup, as in the code all
real dictionaries have distinct keys), fallible operations (`data[0]`,
`d[key]`, `min([])`, failing `assert`) are embedded in the `Except MergeError`
monad, `numpy` floats are idealised as exact arithmetic (`ℚ` for mean and
variance, `ℝ` for the standard deviation, which needs a square root).
Each `assert` site of the source is mapped to the error name the design
document gives it.
-/

set_option maxHeartbeats 1000000

namespace MergeLogs

/-- Error outcomes of the merge strategies.  The first six names follow the
error taxonomy of the design document (each corresponds to one `assert` site
of `formats.py`); the remaining ones model the Python runtime errors that the
code can raise (`IndexError`, `KeyError`, `ValueError` from `min([])`,
`TypeError` from `np.mean` over non-numbers). -/
inductive MergeError where
  | featureNotAllowed
  | keyMismatch
  | keyCountMismatch
  | columnCountMismatch
  | stepCountMismatch
  | pathNotFound
  | indexError
  | keyError
  | valueError
  | typeError
  deriving DecidableEq, Repr

/-- A Python `dict` as an association list; lookups take the first binding. -/
abbrev Dict (K V : Type) := List (K × V)

/-- Arbitrary nested record, as loaded from YAML/JSON: either a number or a
string-keyed mapping (the shapes `get_nested` and `merge_format3` consume). -/
inductive Record where
  | leaf : ℚ → Record
  | node : List (String × Record) → Record

/-- `FileFormat0 = Dict[Any, List[float]]` with a decidable key type. -/
abbrev FileFormat0 (K : Type) := Dict K (List ℚ)

/-- `FileFormat1 = Dict[int, List[float]]`. -/
abbrev FileFormat1 := Dict ℤ (List ℚ)

/-- `FileFormat2 = Dict[int, List[List[float]]]`. -/
abbrev FileFormat2 := Dict ℤ (List (List ℚ))

/-- A Format3 file: the per-step records (`load_json_rows` indexes the rows by
`0, 1, 2, …`, so the dict `{0: r0, 1: r1, …}` is exactly a list of records). -/
abbrev FileFormat3 := List Record

/-- The keys of a dict, in insertion order (`d.keys()`). -/
def dictKeys {K V : Type} (d : Dict K V) : List K := d.map Prod.fst

/-- Python `d[k]` as an `Option`: first binding with key `k`. -/
def dictGet? {K V : Type} [DecidableEq K] : Dict K V → K → Option V
  | [], _ => none
  | (k₀, v) :: rest, k => if k₀ = k then some v else dictGet? rest k

/-- Python `d[k]`: raises `KeyError` when the key is absent. -/
def dictGetE {K V : Type} [DecidableEq K] (d : Dict K V) (k : K) : Except MergeError V :=
  match dictGet? d k with
  | some v => .ok v
  | none => .error .keyError

/-- Python `l[i]` for a non-negative index: raises `IndexError` out of range. -/
def listGet {α : Type} : List α → ℕ → Except MergeError α
  | [], _ => .error .indexError
  | x :: _, 0 => .ok x
  | _ :: xs, n + 1 => listGet xs n

/-- Python `set(a) == set(b)` for key lists. -/
def setEqB {K : Type} [DecidableEq K] (a b : List K) : Bool :=
  a.all (fun k => decide (k ∈ b)) && b.all (fun k => decide (k ∈ a))

/-- Python `sorted` on integer keys. -/
def sortKeys (l : List ℤ) : List ℤ := l.insertionSort (· ≤ ·)

/-- Effectful `map` over a list in the `Except` monad, written with explicit
matches (a Python `for` loop that may raise at each element). -/
def exMapM {α β : Type} (f : α → Except MergeError β) : List α → Except MergeError (List β)
  | [] => .ok []
  | x :: xs =>
    match f x with
    | .error e => .error e
    | .ok y =>
      match exMapM f xs with
      | .error e => .error e
      | .ok ys => .ok (y :: ys)

/-- Effectful left fold in the `Except` monad (a Python `for` loop building an
accumulator, which may raise at each element). -/
def exFoldl {α σ : Type} (f : σ → α → Except MergeError σ) : σ → List α → Except MergeError σ
  | acc, [] => .ok acc
  | acc, x :: xs =>
    match f acc x with
    | .error e => .error e
    | .ok acc₂ => exFoldl f acc₂ xs

/-- `np.mean`: arithmetic mean (over `ℚ`; the empty list yields the junk
value `0` where numpy would yield `NaN`). -/
def npMean (l : List ℚ) : ℚ := l.sum / l.length

/-- Population variance, `np.std` squared: mean of the squared deviations,
divided by `N` (not `N - 1`). -/
def npVar (l : List ℚ) : ℚ := ((l.map (fun x => (x - npMean l) ^ 2)).sum) / l.length

/-- `np.std`: population standard deviation. -/
noncomputable def npStd (l : List ℚ) : ℝ := Real.sqrt ((npVar l : ℚ) : ℝ)

/-- One `[np.mean(samples), np.std(samples)]` pair, as written by every
merge strategy. -/
noncomputable def statRow (l : List ℚ) : List ℝ := [((npMean l : ℚ) : ℝ), npStd l]

/-- Loop of Python `min(iterable, key=f)`: keep the first best, replace only
on a strictly smaller key value. -/
def minByAux (f : ℤ → ℤ) (best : ℤ) : List ℤ → ℤ
  | [] => best
  | y :: ys => if f y < f best then minByAux f y ys else minByAux f best ys

/-- Python `min(l, key=f)`: `ValueError` on an empty sequence, else the first
element attaining the minimal key value. -/
def pyMin (f : ℤ → ℤ) : List ℤ → Except MergeError ℤ
  | [] => .error .valueError
  | x :: xs => .ok (minByAux f x xs)

/-- Helper of `splitComma`: accumulate the current segment (reversed). -/
def splitCommaAux : List Char → List Char → List (List Char)
  | [], acc => [acc.reverse]
  | c :: cs, acc => if c = ',' then acc.reverse :: splitCommaAux cs [] else splitCommaAux cs (c :: acc)

/-- Python `s.split(",")` (always returns a non-empty list of segments). -/
def splitComma (s : String) : List String :=
  (splitCommaAux s.toList []).map (fun cs => String.mk cs)

/-- Python `nested_feat.split(",")[-1]`: the display name of a feature path
(`split` never returns an empty list, so the default is never used). -/
def lastSeg (s : String) : String := (splitComma s).getLastD ""

/-- Python `data[segment]` on a loosely-typed record: `KeyError` on a missing
mapping key, `TypeError` when indexing a scalar — the design document folds
both into `PathNotFoundError`. -/
def recIndex : Record → String → Except MergeError Record
  | .leaf _, _ => .error .pathNotFound
  | .node entries, s =>
    match dictGet? entries s with
    | some v => .ok v
    | none => .error .pathNotFound

/-- `_get_nested(data, nested_feature)`: return the record itself on the empty
path, else index with the head segment and recurse on the tail. -/
def getNestedAux (r : Record) : List String → Except MergeError Record
  | [] => .ok r
  | s :: rest =>
    match recIndex r s with
    | .error e => .error e
    | .ok v => getNestedAux v rest

/-- `get_nested(data, nested_feature)`: split the comma-separated path, then
walk it. -/
def get_nested (r : Record) (nested_feature : String) : Except MergeError Record :=
  getNestedAux r (splitComma nested_feature)

/-- A record as a number, as `np.mean`/`np.std` consume it (`TypeError` on a
mapping). -/
def recordVal : Record → Except MergeError ℚ
  | .leaf q => .ok q
  | .node _ => .error .typeError

/-- `merge_format0`: exact key matching, pooled samples, one
`[mean, std]` pair per key, no csv header. -/
noncomputable def merge_format0 {K : Type} [DecidableEq K] (data : List (FileFormat0 K))
    (features : Option (List String)) :
    Except MergeError (Dict K (List ℝ) × Option (List String)) :=
  -- assert features is None
  if features.isSome then .error .featureNotAllowed else
  -- keys = set(data[0].keys())
  match listGet data 0 with
  | .error e => .error e
  | .ok first =>
  let keys := dictKeys first
  -- assert set(file_data.keys()) == keys for every file
  if data.all (fun fd => setEqB (dictKeys fd) keys) then
    -- combined[key] = concatenation of file_data[key] over files, then stats
    match exMapM (fun k =>
        match exMapM (fun fd => dictGetE fd k) data with
        | .error e => .error e
        | .ok lists => .ok (k, lists.flatten)) keys with
    | .error e => .error e
    | .ok combined =>
      .ok (combined.map (fun p => (p.1, statRow p.2)), none)
  else .error .keyMismatch

/-- `merge_format1`: integer keys, nearest-key matching per file, pooled
samples, one `[mean, std]` pair per canonical key, no csv header.
`zip(data, all_keys)` pairs each file with its own sorted key list, so the
sorted key list is recomputed per file here. -/
noncomputable def merge_format1 (data : List FileFormat1)
    (features : Option (List String)) :
    Except MergeError (Dict ℤ (List ℝ) × Option (List String)) :=
  -- assert features is None
  if features.isSome then .error .featureNotAllowed else
  -- all_keys = [sorted(data_i.keys()) for data_i in data]
  let all_keys := data.map (fun d => sortKeys (dictKeys d))
  -- assert len(keys) == len(all_keys[0]) for every file
  if all_keys.all (fun ks => ks.length = (all_keys.headD []).length) then
    -- for key in all_keys[0]
    match listGet all_keys 0 with
    | .error e => .error e
    | .ok keys0 =>
    match exMapM (fun key =>
        match exMapM (fun fd =>
            -- other_key = min(file_keys, key=lambda k: abs(key - k))
            match pyMin (fun k => |key - k|) (sortKeys (dictKeys fd)) with
            | .error e => .error e
            | .ok other => dictGetE fd other) data with
        | .error e => .error e
        | .ok lists => .ok (key, lists.flatten)) keys0 with
    | .error e => .error e
    | .ok combined =>
      .ok (combined.map (fun p => (p.1, statRow p.2)), none)
  else .error .keyCountMismatch

/-- `merge_format2`: like format1 but each key holds rows of `n_stats`
columns; per canonical key the output row is the per-column `[mean, std]`
pairs concatenated in column order.  The combine loop is expressed
column-wise: after the column-count check every sample has length exactly
`n_stats`, so `enumerate(samples)` appends precisely `s.getD i 0` to column
`i` for `i < n_stats`. -/
noncomputable def merge_format2 (data : List FileFormat2)
    (features : Option (List String)) :
    Except MergeError (Dict ℤ (List ℝ) × Option (List String)) :=
  -- assert features is None
  if features.isSome then .error .featureNotAllowed else
  let all_keys := data.map (fun d => sortKeys (dictKeys d))
  -- assert len(keys) == len(all_keys[0]) for every file
  if all_keys.all (fun ks => ks.length = (all_keys.headD []).length) then
    -- n_stats = len(data[0][all_keys[0][0]][0])
    match listGet data 0 with
    | .error e => .error e
    | .ok first =>
    match listGet (sortKeys (dictKeys first)) 0 with
    | .error e => .error e
    | .ok k00 =>
    match dictGetE first k00 with
    | .error e => .error e
    | .ok rows0 =>
    match listGet rows0 0 with
    | .error e => .error e
    | .ok sample0 =>
    let n_stats := sample0.length
    -- assert len(samples) == n_stats for every sample of every key of every file
    if data.all (fun fd => fd.all (fun p => p.2.all (fun s => s.length = n_stats))) then
      match listGet all_keys 0 with
      | .error e => .error e
      | .ok keys0 =>
      match exMapM (fun key =>
          match exMapM (fun fd =>
              match pyMin (fun k => |key - k|) (sortKeys (dictKeys fd)) with
              | .error e => .error e
              | .ok other => dictGetE fd other) data with
          | .error e => .error e
          | .ok rowsPerFile =>
            .ok (key, (List.range n_stats).map
              (fun i => (rowsPerFile.flatten).map (fun s => s.getD i 0)))) keys0 with
      | .error e => .error e
      | .ok combined =>
        .ok (combined.map (fun p => (p.1, (p.2.map statRow).flatten)), none)
    else .error .columnCountMismatch
  else .error .keyCountMismatch

/-- `merge_format3`: positional steps, per-feature nested extraction; the
header is the list of display names.  `all_stats[name] = feat_stats` is a
Python dict assignment, i.e. last write wins; prepending to the association
list realises exactly that lookup behaviour. -/
noncomputable def merge_format3 (data : List FileFormat3) (features : List String) :
    Except MergeError (Dict ℕ (List ℝ) × Option (List String)) :=
  -- features_names = [nested_feat.split(",")[-1] for nested_feat in features]
  let features_names := features.map lastSeg
  -- n_steps = len(data[0])
  match listGet data 0 with
  | .error e => .error e
  | .ok first =>
  let n_steps := first.length
  -- assert all(len(file_stats) == n_steps for file_stats in data)
  if data.all (fun fs => fs.length = n_steps) then
    -- all_stats[name] = [[get_nested(file_stats[step], feature) for file_stats in data] for step]
    match exFoldl (fun acc p =>
        match exMapM (fun step =>
            exMapM (fun fs =>
                match listGet fs step with
                | .error e => .error e
                | .ok r => get_nested r p.2) data) (List.range n_steps) with
        | .error e => .error e
        | .ok feat_stats => .ok ((p.1, feat_stats) :: acc))
      [] (features_names.zip features) with
    | .error e => .error e
    | .ok all_stats =>
    -- stats[i] = [mean, std of all_stats[name][i] for name in features_names]
    match exMapM (fun i =>
        match exMapM (fun name =>
            match dictGetE all_stats name with
            | .error e => .error e
            | .ok feat_stats =>
              match listGet feat_stats i with
              | .error e => .error e
              | .ok stepRecords =>
                match exMapM recordVal stepRecords with
                | .error e => .error e
                | .ok vals => .ok (statRow vals)) features_names with
        | .error e => .error e
        | .ok pairs => .ok (i, pairs.flatten)) (List.range n_steps) with
    | .error e => .error e
    | .ok stats => .ok (stats, some features_names)
  else .error .stepCountMismatch

/-- Specification-side pooled samples for Format0: the concatenation, in file
order, of the sample sequences each file maps to key `k`. -/
def pooled0 {K : Type} [DecidableEq K] (data : List (FileFormat0 K)) (k : K) : List ℚ :=
  (data.map (fun fd => (dictGet? fd k).getD [])).flatten

/-- Specification-side nearest key: first minimiser of `|key - ·|` in a scan
of `fk` (total version of `pyMin`; the `[]` case never occurs in use). -/
def nearest (fk : List ℤ) (key : ℤ) : ℤ :=
  match fk with
  | [] => 0
  | x :: xs => minByAux (fun j => |key - j|) x xs

/-- The samples a Format1 file contributes to canonical key `key`. -/
def matched1 (fd : FileFormat1) (key : ℤ) : List ℚ :=
  (dictGet? fd (nearest (sortKeys (dictKeys fd)) key)).getD []

/-- Specification-side pooled samples for Format1. -/
def pooled1 (data : List FileFormat1) (key : ℤ) : List ℚ :=
  (data.map (fun fd => matched1 fd key)).flatten

/-- The rows a Format2 file contributes to canonical key `key`. -/
def matched2 (fd : FileFormat2) (key : ℤ) : List (List ℚ) :=
  (dictGet? fd (nearest (sortKeys (dictKeys fd)) key)).getD []

/-- All rows pooled for canonical key `key`, in file order. -/
def pooledRows2 (data : List FileFormat2) (key : ℤ) : List (List ℚ) :=
  (data.map (fun fd => matched2 fd key)).flatten

/-- Column `i` of the pooled rows for canonical key `key`. -/
def col2 (data : List FileFormat2) (key : ℤ) (i : ℕ) : List ℚ :=
  (pooledRows2 data key).map (fun s => s.getD i 0)

/-- Specification-side Format2 output row: per-column `[mean, std]` pairs
concatenated in column order. -/
noncomputable def row2 (data : List FileFormat2) (n_stats : ℕ) (key : ℤ) : List ℝ :=
  ((List.range n_stats).map (fun i => statRow (col2 data key i))).flatten

/-- The numeric payload of a successful leaf lookup (junk `0` otherwise). -/
def leafValOf : Except MergeError Record → ℚ
  | .ok (.leaf q) => q
  | _ => 0

/-- Whether a lookup outcome is a numeric leaf. -/
def isLeafOk : Except MergeError Record → Bool
  | .ok (.leaf _) => true
  | _ => false

/-- The numeric value feature path `ft` resolves to in step `i` of file `f`
(junk `0` when the step or the path is missing or not a number). -/
def featAt (f : FileFormat3) (i : ℕ) (ft : String) : ℚ :=
  match listGet f i with
  | .error _ => 0
  | .ok r => leafValOf (get_nested r ft)

/-- Whether feature path `ft` resolves to a number in step `i` of file `f`. -/
def isLeafAt (f : FileFormat3) (i : ℕ) (ft : String) : Bool :=
  match listGet f i with
  | .error _ => false
  | .ok r => isLeafOk (get_nested r ft)

/-- The values of feature `ft` at step `i` across all files, in file order. -/
def fvals (data : List FileFormat3) (ft : String) (i : ℕ) : List ℚ :=
  data.map (fun f => featAt f i ft)

/-- Specification-side Format3 output row for step `i`: per-feature
`[mean, std]` pairs concatenated in feature order. -/
noncomputable def row3 (data : List FileFormat3) (features : List String) (i : ℕ) : List ℝ :=
  (features.map (fun ft => statRow (fvals data ft i))).flatten

/-- The per-step record lists that `merge_format3` stores in `all_stats` for
feature `ft` when every resolution yields a number. -/
def featRecords (data : List FileFormat3) (n : ℕ) (ft : String) : List (List Record) :=
  (List.range n).map (fun i => data.map (fun f => Record.leaf (featAt f i ft)))

/-! ### Helper lemmas about the embedding primitives -/

theorem exMapM_ok_of {α β : Type} (f : α → Except MergeError β) (g : α → β) :
    ∀ l : List α, (∀ x ∈ l, f x = .ok (g x)) → exMapM f l = .ok (l.map g)
  | [], _ => rfl
  | x :: xs, h => by
    have hx := h x (List.mem_cons_self x xs)
    have hxs := exMapM_ok_of f g xs (fun y hy => h y (List.mem_cons_of_mem x hy))
    simp [exMapM, hx, hxs]

theorem exFoldl_prepend {α β : Type} (step : List β → α → Except MergeError (List β))
    (entry : α → β) :
    ∀ (l : List α) (acc : List β), (∀ p ∈ l, ∀ a, step a p = .ok (entry p :: a)) →
      exFoldl step acc l = .ok ((l.map entry).reverse ++ acc)
  | [], acc, _ => rfl
  | x :: xs, acc, h => by
    have hx := h x (List.mem_cons_self x xs) acc
    have hxs := exFoldl_prepend step entry xs (entry x :: acc)
      (fun y hy => h y (List.mem_cons_of_mem x hy))
    simp [exFoldl, hx, hxs, List.append_assoc]

theorem listGet_ok {α : Type} : ∀ (l : List α) (i : ℕ) (h : i < l.length), listGet l i = .ok l[i]
  | _ :: _, 0, _ => rfl
  | _ :: xs, n + 1, h => listGet_ok xs n (by simpa using h)

theorem dictKeys_cons {K V : Type} (p : K × V) (rest : Dict K V) :
    dictKeys (p :: rest) = p.1 :: dictKeys rest := rfl

theorem dictGet?_some_of_mem {K V : Type} [DecidableEq K] :
    ∀ (d : Dict K V) (k : K), k ∈ dictKeys d → ∃ v, dictGet? d k = some v
  | [], k, h => by simp [dictKeys] at h
  | (k₀, v₀) :: rest, k, h => by
    by_cases hk : k₀ = k
    · exact ⟨v₀, by simp [dictGet?, hk]⟩
    · have hmem : k ∈ dictKeys rest := by
        rcases List.mem_cons.mp h with h₁ | h₁
        · exact absurd h₁.symm hk
        · exact h₁
      obtain ⟨w, hw⟩ := dictGet?_some_of_mem rest k hmem
      exact ⟨w, by simp [dictGet?, hk, hw]⟩

theorem dictGetE_ok {K V : Type} [DecidableEq K] {d : Dict K V} {k : K} {v : V}
    (h : dictGet? d k = some v) : dictGetE d k = .ok v := by
  simp [dictGetE, h]

theorem dictGet?_map_self {K V : Type} [DecidableEq K] (g : K → V) :
    ∀ (ks : List K) (k : K),
      dictGet? (ks.map (fun x => (x, g x))) k = if k ∈ ks then some (g k) else none
  | [], k => by simp [dictGet?]
  | x :: xs, k => by
    by_cases h : x = k
    · subst h
      simp [dictGet?]
    · simp [dictGet?, h, dictGet?_map_self g xs k, Ne.symm h]

theorem dictGet?_of_mem_nodup {K V : Type} [DecidableEq K] :
    ∀ (d : Dict K V) (k : K) (v : V), (dictKeys d).Nodup → (k, v) ∈ d → dictGet? d k = some v
  | [], _, _, _, h => by simp at h
  | (k₀, v₀) :: rest, k, v, hnd, h => by
    rcases List.mem_cons.mp h with h₁ | h₁
    · cases h₁
      simp [dictGet?]
    · have hk : k₀ ≠ k := by
        intro he
        subst he
        have hmem : k₀ ∈ dictKeys rest := List.mem_map.mpr ⟨(k₀, v), h₁, rfl⟩
        rw [dictKeys_cons] at hnd
        exact (List.nodup_cons.mp hnd).1 hmem
      have := dictGet?_of_mem_nodup rest k v (by rw [dictKeys_cons] at hnd; exact (List.nodup_cons.mp hnd).2) h₁
      simp [dictGet?, hk, this]

theorem dictGet?_reverse_of_mem_nodup {K V : Type} [DecidableEq K] (d : Dict K V) (k : K) (v : V)
    (hnd : (dictKeys d).Nodup) (hm : (k, v) ∈ d) : dictGet? d.reverse k = some v := by
  refine dictGet?_of_mem_nodup d.reverse k v ?_ (List.mem_reverse.mpr hm)
  have : dictKeys d.reverse = (dictKeys d).reverse := by
    simp [dictKeys, List.map_reverse]
  rw [this]
  exact List.nodup_reverse.mpr hnd

theorem setEqB_iff {K : Type} [DecidableEq K] (a b : List K) :
    setEqB a b = true ↔ ((∀ k ∈ a, k ∈ b) ∧ (∀ k ∈ b, k ∈ a)) := by
  simp [setEqB]

theorem sortKeys_perm (l : List ℤ) : (sortKeys l).Perm l := List.perm_insertionSort _ l

theorem mem_sortKeys {a : ℤ} {l : List ℤ} : a ∈ sortKeys l ↔ a ∈ l := (sortKeys_perm l).mem_iff

theorem length_sortKeys (l : List ℤ) : (sortKeys l).length = l.length := (sortKeys_perm l).length_eq

theorem sorted_sortKeys (l : List ℤ) : List.Sorted (· ≤ ·) (sortKeys l) :=
  List.sorted_insertionSort _ l

theorem minByAux_mem (f : ℤ → ℤ) : ∀ (l : List ℤ) (b : ℤ), minByAux f b l ∈ b :: l
  | [], b => List.mem_cons_self b []
  | y :: ys, b => by
    simp only [minByAux]
    by_cases h : f y < f b
    · rw [if_pos h]
      exact List.mem_cons_of_mem b (minByAux_mem f ys y)
    · rw [if_neg h]
      rcases List.mem_cons.mp (minByAux_mem f ys b) with h₁ | h₁
      · rw [h₁]
        exact List.mem_cons_self b (y :: ys)
      · exact List.mem_cons_of_mem b (List.mem_cons_of_mem y h₁)

theorem minByAux_le (f : ℤ → ℤ) :
    ∀ (l : List ℤ) (b : ℤ), ∀ y ∈ b :: l, f (minByAux f b l) ≤ f y
  | [], b, y, hy => by
    rcases List.mem_cons.mp hy with h | h
    · subst h; simp [minByAux]
    · simp at h
  | z :: zs, b, y, hy => by
    simp only [minByAux]
    by_cases h : f z < f b
    · rw [if_pos h]
      rcases List.mem_cons.mp hy with h₁ | h₁
      · subst h₁
        exact le_of_lt (lt_of_le_of_lt (minByAux_le f zs z z (List.mem_cons_self z zs)) h)
      · exact minByAux_le f zs z y h₁
    · rw [if_neg h]
      rcases List.mem_cons.mp hy with h₁ | h₁
      · rw [h₁]
        exact minByAux_le f zs b b (List.mem_cons_self b zs)
      · rcases List.mem_cons.mp h₁ with h₂ | h₂
        · rw [h₂]
          exact le_trans (minByAux_le f zs b b (List.mem_cons_self b zs)) (not_lt.mp h)
        · exact minByAux_le f zs b y (List.mem_cons_of_mem b h₂)

theorem minByAux_eq_or_lt (f : ℤ → ℤ) :
    ∀ (l : List ℤ) (b : ℤ), minByAux f b l = b ∨ f (minByAux f b l) < f b
  | [], b => Or.inl rfl
  | z :: zs, b => by
    simp only [minByAux]
    by_cases h : f z < f b
    · rw [if_pos h]
      rcases minByAux_eq_or_lt f zs z with h₁ | h₁
      · exact Or.inr (by rw [h₁]; exact h)
      · exact Or.inr (lt_trans h₁ h)
    · rw [if_neg h]
      exact minByAux_eq_or_lt f zs b

theorem minByAux_tie_le (f : ℤ → ℤ) :
    ∀ (l : List ℤ) (b : ℤ), List.Sorted (· ≤ ·) (b :: l) →
      ∀ y ∈ b :: l, f y = f (minByAux f b l) → minByAux f b l ≤ y
  | [], b, _, y, hy, _ => by
    rcases List.mem_cons.mp hy with h | h
    · subst h; simp [minByAux]
    · simp at h
  | z :: zs, b, hs, y, hy, hf => by
    have hbz : b ≤ z := (List.sorted_cons.mp hs).1 z (List.mem_cons_self z zs)
    have hszs : List.Sorted (· ≤ ·) (z :: zs) := (List.sorted_cons.mp hs).2
    have hbzs : List.Sorted (· ≤ ·) (b :: zs) := by
      rw [List.sorted_cons]
      exact ⟨fun c hc => (List.sorted_cons.mp hs).1 c (List.mem_cons_of_mem z hc),
        (List.sorted_cons.mp hszs).2⟩
    simp only [minByAux] at hf ⊢
    by_cases h : f z < f b
    · rw [if_pos h]
      rw [if_pos h] at hf
      rcases List.mem_cons.mp hy with h₁ | h₁
      · subst h₁
        have hlt : f (minByAux f z zs) < f y :=
          lt_of_le_of_lt (minByAux_le f zs z z (List.mem_cons_self z zs)) h
        exact absurd hf (ne_of_gt hlt)
      · exact minByAux_tie_le f zs z hszs y h₁ hf
    · rw [if_neg h]
      rw [if_neg h] at hf
      rcases List.mem_cons.mp hy with h₁ | h₁
      · rw [h₁] at hf ⊢
        rcases minByAux_eq_or_lt f zs b with h₂ | h₂
        · exact le_of_eq h₂
        · exact absurd hf.symm (ne_of_lt h₂)
      · rcases List.mem_cons.mp h₁ with h₂ | h₂
        · rw [h₂] at hf ⊢
          rcases minByAux_eq_or_lt f zs b with h₃ | h₃
          · rw [h₃]
            exact hbz
          · have hlt : f (minByAux f b zs) < f z := lt_of_lt_of_le h₃ (not_lt.mp h)
            exact absurd hf.symm (ne_of_lt hlt)
        · exact minByAux_tie_le f zs b hbzs y (List.mem_cons_of_mem b h₂) hf

theorem npMean_perm {l₁ l₂ : List ℚ} (h : l₁.Perm l₂) : npMean l₁ = npMean l₂ := by
  unfold npMean
  rw [h.sum_eq, h.length_eq]

theorem npVar_perm {l₁ l₂ : List ℚ} (h : l₁.Perm l₂) : npVar l₁ = npVar l₂ := by
  have hm : npMean l₁ = npMean l₂ := npMean_perm h
  unfold npVar
  rw [hm, h.length_eq, List.Perm.sum_eq (h.map fun x => (x - npMean l₂) ^ 2)]

theorem npStd_perm {l₁ l₂ : List ℚ} (h : l₁.Perm l₂) : npStd l₁ = npStd l₂ := by
  unfold npStd
  rw [npVar_perm h]

theorem statRow_perm {l₁ l₂ : List ℚ} (h : l₁.Perm l₂) : statRow l₁ = statRow l₂ := by
  unfold statRow
  rw [npMean_perm h, npStd_perm h]

theorem statRow_length (l : List ℚ) : (statRow l).length = 2 := rfl

theorem flatten_statRows_length {α : Type} (g : α → List ℚ) :
    ∀ l : List α, ((l.map (fun x => statRow (g x))).flatten).length = 2 * l.length
  | [] => rfl
  | x :: xs => by
    rw [List.map_cons, List.flatten_cons, List.length_append, statRow_length,
      flatten_statRows_length g xs, List.length_cons]
    ring

/-! ### Behaviour of `merge_format0` -/

theorem merge_format0_spec {K : Type} [DecidableEq K] (d0 : FileFormat0 K)
    (rest : List (FileFormat0 K))
    (hkeys : (d0 :: rest).all (fun fd => setEqB (dictKeys fd) (dictKeys d0)) = true) :
    merge_format0 (d0 :: rest) none =
      .ok ((dictKeys d0).map (fun k => (k, statRow (pooled0 (d0 :: rest) k))), none) := by
  have hmem : ∀ fd ∈ d0 :: rest, ∀ k ∈ dictKeys d0, k ∈ dictKeys fd := by
    intro fd hfd k hk
    have hfd₂ := List.all_eq_true.mp hkeys fd hfd
    exact ((setEqB_iff _ _).mp hfd₂).2 k hk
  have hinner : ∀ k ∈ dictKeys d0,
      exMapM (fun fd => dictGetE fd k) (d0 :: rest) =
        .ok ((d0 :: rest).map (fun fd => (dictGet? fd k).getD [])) := by
    intro k hk
    refine exMapM_ok_of _ _ _ (fun fd hfd => ?_)
    obtain ⟨v, hv⟩ := dictGet?_some_of_mem fd k (hmem fd hfd k hk)
    rw [dictGetE_ok hv, hv]
    rfl
  have houter : exMapM (fun k =>
      match exMapM (fun fd => dictGetE fd k) (d0 :: rest) with
      | .error e => .error e
      | .ok lists => .ok (k, lists.flatten)) (dictKeys d0) =
      .ok ((dictKeys d0).map (fun k => (k, pooled0 (d0 :: rest) k))) := by
    refine exMapM_ok_of _ _ _ (fun k hk => ?_)
    rw [hinner k hk]
    rfl
  unfold merge_format0
  simp only [Option.isSome_none, Bool.false_eq_true, if_false, listGet, hkeys, if_true, houter,
    List.map_map]
  rfl

theorem merge_format0_checkFail {K : Type} [DecidableEq K] (d0 : FileFormat0 K)
    (rest : List (FileFormat0 K))
    (h : (d0 :: rest).all (fun fd => setEqB (dictKeys fd) (dictKeys d0)) = false) :
    merge_format0 (d0 :: rest) none = .error .keyMismatch := by
  unfold merge_format0
  simp only [Option.isSome_none, Bool.false_eq_true, if_false, listGet, h, Bool.false_eq_true]

/-! ### Behaviour of the nearest-key helpers and `merge_format1` -/

theorem pyMin_eq_nearest (fk : List ℤ) (key : ℤ) (h : fk ≠ []) :
    pyMin (fun k => |key - k|) fk = .ok (nearest fk key) := by
  cases fk with
  | nil => exact absurd rfl h
  | cons x xs => rfl

theorem nearest_mem (fk : List ℤ) (key : ℤ) (h : fk ≠ []) : nearest fk key ∈ fk := by
  cases fk with
  | nil => exact absurd rfl h
  | cons x xs => exact minByAux_mem _ xs x

theorem matched1_eq {fd : FileFormat1} {key : ℤ} {v : List ℚ}
    (h : dictGet? fd (nearest (sortKeys (dictKeys fd)) key) = some v) : matched1 fd key = v := by
  unfold matched1
  rw [h]
  rfl

theorem merge_format1_spec (d0 : FileFormat1) (rest : List FileFormat1)
    (hcnt : ∀ fd ∈ d0 :: rest, (dictKeys fd).length = (dictKeys d0).length) :
    merge_format1 (d0 :: rest) none =
      .ok ((sortKeys (dictKeys d0)).map (fun k => (k, statRow (pooled1 (d0 :: rest) k))), none) := by
  have hne : ∀ k ∈ sortKeys (dictKeys d0), ∀ fd ∈ d0 :: rest, sortKeys (dictKeys fd) ≠ [] := by
    intro k hk fd hfd hnil
    have h₁ : (dictKeys fd).length = 0 := by
      rw [← length_sortKeys, hnil]
      rfl
    have h₂ : (sortKeys (dictKeys d0)).length = 0 := by
      rw [length_sortKeys, ← hcnt fd hfd]
      exact h₁
    rw [List.length_eq_zero.mp h₂] at hk
    simp at hk
  have hinner : ∀ k ∈ sortKeys (dictKeys d0),
      exMapM (fun fd =>
        match pyMin (fun j => |k - j|) (sortKeys (dictKeys fd)) with
        | .error e => .error e
        | .ok other => dictGetE fd other) (d0 :: rest) =
      .ok ((d0 :: rest).map (fun fd => matched1 fd k)) := by
    intro k hk
    refine exMapM_ok_of _ _ _ (fun fd hfd => ?_)
    have hfk := hne k hk fd hfd
    rw [pyMin_eq_nearest _ k hfk]
    have hmem : nearest (sortKeys (dictKeys fd)) k ∈ dictKeys fd :=
      mem_sortKeys.mp (nearest_mem _ k hfk)
    obtain ⟨v, hv⟩ := dictGet?_some_of_mem fd _ hmem
    show dictGetE fd (nearest (sortKeys (dictKeys fd)) k) = Except.ok (matched1 fd k)
    rw [dictGetE_ok hv, matched1_eq hv]
  have houter : exMapM (fun key =>
      match exMapM (fun fd =>
          match pyMin (fun j => |key - j|) (sortKeys (dictKeys fd)) with
          | .error e => .error e
          | .ok other => dictGetE fd other) (d0 :: rest) with
      | .error e => .error e
      | .ok lists => .ok (key, lists.flatten)) (sortKeys (dictKeys d0)) =
      .ok ((sortKeys (dictKeys d0)).map (fun key => (key, pooled1 (d0 :: rest) key))) := by
    refine exMapM_ok_of _ _ _ (fun k hk => ?_)
    rw [hinner k hk]
    rfl
  have hcond : ((sortKeys (dictKeys d0) :: rest.map (fun d => sortKeys (dictKeys d))).all
      (fun ks => ks.length = (sortKeys (dictKeys d0)).length)) = true := by
    rw [List.all_eq_true]
    intro ks hks
    simp only [decide_eq_true_eq]
    rcases List.mem_cons.mp hks with h₁ | h₁
    · rw [h₁]
    · obtain ⟨fd, hfd, heq⟩ := List.mem_map.mp h₁
      rw [← heq, length_sortKeys, length_sortKeys]
      exact hcnt fd (List.mem_cons_of_mem d0 hfd)
  unfold merge_format1
  simp only [Option.isSome_none, Bool.false_eq_true, if_false, List.map_cons, List.headD_cons,
    hcond, if_true, listGet, houter, List.map_map]
  rfl

/-! ### Behaviour of `merge_format2` -/

theorem matched2_eq {fd : FileFormat2} {key : ℤ} {v : List (List ℚ)}
    (h : dictGet? fd (nearest (sortKeys (dictKeys fd)) key) = some v) : matched2 fd key = v := by
  unfold matched2
  rw [h]
  rfl

theorem merge_format2_spec (d0 : FileFormat2) (rest : List FileFormat2) (k00 : ℤ) (ktl : List ℤ)
    (sample0 : List ℚ) (rows_tl : List (List ℚ))
    (hk0 : sortKeys (dictKeys d0) = k00 :: ktl)
    (hr0 : dictGet? d0 k00 = some (sample0 :: rows_tl))
    (hcnt : ∀ fd ∈ d0 :: rest, (dictKeys fd).length = (dictKeys d0).length)
    (hgood : (d0 :: rest).all
      (fun fd => fd.all (fun p => p.2.all (fun s => s.length = sample0.length))) = true) :
    merge_format2 (d0 :: rest) none =
      .ok ((k00 :: ktl).map (fun k => (k, row2 (d0 :: rest) sample0.length k)), none) := by
  have hne : ∀ fd ∈ d0 :: rest, sortKeys (dictKeys fd) ≠ [] := by
    intro fd hfd hnil
    have h₁ : (dictKeys fd).length = 0 := by
      rw [← length_sortKeys, hnil]
      rfl
    have h₂ : (sortKeys (dictKeys d0)).length = 0 := by
      rw [length_sortKeys, ← hcnt fd hfd]
      exact h₁
    rw [hk0] at h₂
    simp at h₂
  have hinner : ∀ (k : ℤ),
      exMapM (fun fd =>
        match pyMin (fun j => |k - j|) (sortKeys (dictKeys fd)) with
        | .error e => .error e
        | .ok other => dictGetE fd other) (d0 :: rest) =
      .ok ((d0 :: rest).map (fun fd => matched2 fd k)) := by
    intro k
    refine exMapM_ok_of _ _ _ (fun fd hfd => ?_)
    have hfk := hne fd hfd
    rw [pyMin_eq_nearest _ k hfk]
    have hmem : nearest (sortKeys (dictKeys fd)) k ∈ dictKeys fd :=
      mem_sortKeys.mp (nearest_mem _ k hfk)
    obtain ⟨v, hv⟩ := dictGet?_some_of_mem fd _ hmem
    show dictGetE fd (nearest (sortKeys (dictKeys fd)) k) = Except.ok (matched2 fd k)
    rw [dictGetE_ok hv, matched2_eq hv]
  have houter : exMapM (fun key =>
      match exMapM (fun fd =>
          match pyMin (fun j => |key - j|) (sortKeys (dictKeys fd)) with
          | .error e => .error e
          | .ok other => dictGetE fd other) (d0 :: rest) with
      | .error e => .error e
      | .ok rowsPerFile =>
        .ok (key, (List.range sample0.length).map
          (fun i => (rowsPerFile.flatten).map (fun s => s.getD i 0)))) (k00 :: ktl) =
      .ok ((k00 :: ktl).map (fun key =>
        (key, (List.range sample0.length).map (fun i => col2 (d0 :: rest) key i)))) := by
    refine exMapM_ok_of _ _ _ (fun k _ => ?_)
    rw [hinner k]
    rfl
  have hcond : (((k00 :: ktl) :: rest.map (fun d => sortKeys (dictKeys d))).all
      (fun ks => ks.length = (k00 :: ktl).length)) = true := by
    rw [List.all_eq_true]
    intro ks hks
    simp only [decide_eq_true_eq]
    rcases List.mem_cons.mp hks with h₁ | h₁
    · rw [h₁]
    · obtain ⟨fd, hfd, heq⟩ := List.mem_map.mp h₁
      rw [← heq, length_sortKeys, ← hk0, length_sortKeys]
      exact hcnt fd (List.mem_cons_of_mem d0 hfd)
  unfold merge_format2
  simp only [Option.isSome_none, Bool.false_eq_true, if_false, List.map_cons, List.headD_cons,
    hk0, hcond, if_true, listGet, dictGetE_ok hr0, hgood, houter, List.map_map]
  simp only [Function.comp_def, List.map_map]
  simp [row2, List.map_map, Function.comp_def]

theorem merge_format2_colFail (d0 : FileFormat2) (rest : List FileFormat2) (k00 : ℤ)
    (ktl : List ℤ) (sample0 : List ℚ) (rows_tl : List (List ℚ))
    (hk0 : sortKeys (dictKeys d0) = k00 :: ktl)
    (hr0 : dictGet? d0 k00 = some (sample0 :: rows_tl))
    (hcnt : ∀ fd ∈ d0 :: rest, (dictKeys fd).length = (dictKeys d0).length)
    (hbad : (d0 :: rest).all
      (fun fd => fd.all (fun p => p.2.all (fun s => s.length = sample0.length))) = false) :
    merge_format2 (d0 :: rest) none = .error .columnCountMismatch := by
  have hcond : (((k00 :: ktl) :: rest.map (fun d => sortKeys (dictKeys d))).all
      (fun ks => ks.length = (k00 :: ktl).length)) = true := by
    rw [List.all_eq_true]
    intro ks hks
    simp only [decide_eq_true_eq]
    rcases List.mem_cons.mp hks with h₁ | h₁
    · rw [h₁]
    · obtain ⟨fd, hfd, heq⟩ := List.mem_map.mp h₁
      rw [← heq, length_sortKeys, ← hk0, length_sortKeys]
      exact hcnt fd (List.mem_cons_of_mem d0 hfd)
  unfold merge_format2
  simp only [Option.isSome_none, Bool.false_eq_true, if_false, List.map_cons, List.headD_cons,
    hk0, hcond, if_true, listGet, dictGetE_ok hr0, hbad]

/-! ### Behaviour of `merge_format3` -/

theorem exMapM_map {α β γ : Type} (f : β → Except MergeError γ) (h : α → β) :
    ∀ l : List α, exMapM f (l.map h) = exMapM (fun x => f (h x)) l
  | [] => rfl
  | x :: xs => by
    simp only [List.map_cons, exMapM, exMapM_map f h xs]

theorem zip_map_self {α β : Type} (h : α → β) :
    ∀ l : List α, (l.map h).zip l = l.map (fun x => (h x, x))
  | [] => rfl
  | x :: xs => by
    rw [List.map_cons, List.map_cons, List.zip_cons_cons, zip_map_self h xs]

theorem isLeafAt_spec {f : FileFormat3} {i : ℕ} {ft : String} (h : isLeafAt f i ft = true) :
    ∃ r, listGet f i = .ok r ∧ get_nested r ft = .ok (.leaf (featAt f i ft)) := by
  cases hg : listGet f i with
  | error e =>
    unfold isLeafAt at h
    rw [hg] at h
    simp at h
  | ok r =>
    unfold isLeafAt at h
    rw [hg] at h
    have h₂ : isLeafOk (get_nested r ft) = true := h
    have hfa : featAt f i ft = leafValOf (get_nested r ft) := by
      unfold featAt
      rw [hg]
    refine ⟨r, rfl, ?_⟩
    rw [hfa]
    cases hn : get_nested r ft with
    | error e =>
      rw [hn] at h₂
      simp [isLeafOk] at h₂
    | ok rec =>
      cases rec with
      | node entries =>
        rw [hn] at h₂
        simp [isLeafOk] at h₂
      | leaf q => simp [leafValOf]

theorem merge_format3_spec (d0 : FileFormat3) (rest : List FileFormat3) (features : List String)
    (hlen : ∀ f ∈ d0 :: rest, f.length = d0.length)
    (hnodup : (features.map lastSeg).Nodup)
    (hres : ∀ ft ∈ features, ∀ f ∈ d0 :: rest, ∀ i ∈ List.range d0.length,
      isLeafAt f i ft = true) :
    merge_format3 (d0 :: rest) features =
      .ok ((List.range d0.length).map (fun i => (i, row3 (d0 :: rest) features i)),
        some (features.map lastSeg)) := by
  set n := d0.length with hn
  -- the records gathered for one feature
  have hFS : ∀ ft ∈ features,
      exMapM (fun step => exMapM (fun fs =>
          match listGet fs step with
          | .error e => .error e
          | .ok r => get_nested r ft) (d0 :: rest)) (List.range n) =
        .ok (featRecords (d0 :: rest) n ft) := by
    intro ft hft
    refine exMapM_ok_of _ _ _ (fun i hi => ?_)
    refine exMapM_ok_of _ _ _ (fun f hf => ?_)
    obtain ⟨r, hgr, hnr⟩ := isLeafAt_spec (hres ft hft f hf i hi)
    rw [hgr]
    exact hnr
  -- the accumulated all_stats dictionary
  have hfold : exFoldl (fun acc p =>
      match exMapM (fun step => exMapM (fun fs =>
          match listGet fs step with
          | .error e => .error e
          | .ok r => get_nested r p.2) (d0 :: rest)) (List.range n) with
      | .error e => .error e
      | .ok feat_stats => .ok ((p.1, feat_stats) :: acc))
      [] (features.map (fun ft => (lastSeg ft, ft))) =
      .ok ((features.map (fun ft => (lastSeg ft, featRecords (d0 :: rest) n ft))).reverse) := by
    rw [exFoldl_prepend _ (fun p => (p.1, featRecords (d0 :: rest) n p.2)) _ _
      (fun p hp a => ?_)]
    · rw [List.map_map, List.append_nil]
      rfl
    · obtain ⟨ft, hft, heq⟩ := List.mem_map.mp hp
      rw [← heq]
      rw [hFS ft hft]
  -- the keys of all_stats
  have hkeysEq : dictKeys (features.map (fun ft => (lastSeg ft, featRecords (d0 :: rest) n ft)))
      = features.map lastSeg := by
    simp [dictKeys, List.map_map]
  -- one output row
  have hrow : ∀ i ∈ List.range n,
      exMapM (fun name =>
        match dictGetE
            ((features.map (fun ft => (lastSeg ft, featRecords (d0 :: rest) n ft))).reverse)
            name with
        | .error e => .error e
        | .ok feat_stats =>
          match listGet feat_stats i with
          | .error e => .error e
          | .ok stepRecords =>
            match exMapM recordVal stepRecords with
            | .error e => .error e
            | .ok vals => .ok (statRow vals)) (features.map lastSeg) =
      .ok (features.map (fun ft => statRow (fvals (d0 :: rest) ft i))) := by
    intro i hi
    rw [exMapM_map]
    refine exMapM_ok_of _ _ _ (fun ft hft => ?_)
    have hlookup : dictGet?
        ((features.map (fun ft => (lastSeg ft, featRecords (d0 :: rest) n ft))).reverse)
        (lastSeg ft) = some (featRecords (d0 :: rest) n ft) := by
      refine dictGet?_reverse_of_mem_nodup _ _ _ ?_ ?_
      · rw [hkeysEq]
        exact hnodup
      · exact List.mem_map.mpr ⟨ft, hft, rfl⟩
    have hilt : i < n := List.mem_range.mp hi
    have hstep : listGet (featRecords (d0 :: rest) n ft) i =
        .ok ((d0 :: rest).map (fun f => Record.leaf (featAt f i ft))) := by
      have hl : i < (featRecords (d0 :: rest) n ft).length := by
        simp [featRecords, hilt]
      rw [listGet_ok _ i hl]
      simp [featRecords]
    have hvals : exMapM recordVal ((d0 :: rest).map (fun f => Record.leaf (featAt f i ft))) =
        .ok (fvals (d0 :: rest) ft i) := by
      rw [exMapM_map]
      exact exMapM_ok_of _ _ _ (fun f _ => rfl)
    simp only [dictGetE_ok hlookup, hstep, hvals]
  -- the final statistics list
  have hstats : exMapM (fun i =>
      match exMapM (fun name =>
        match dictGetE
            ((features.map (fun ft => (lastSeg ft, featRecords (d0 :: rest) n ft))).reverse)
            name with
        | .error e => .error e
        | .ok feat_stats =>
          match listGet feat_stats i with
          | .error e => .error e
          | .ok stepRecords =>
            match exMapM recordVal stepRecords with
            | .error e => .error e
            | .ok vals => .ok (statRow vals)) (features.map lastSeg) with
      | .error e => .error e
      | .ok pairs => .ok (i, pairs.flatten)) (List.range n) =
      .ok ((List.range n).map (fun i => (i, row3 (d0 :: rest) features i))) := by
    refine exMapM_ok_of _ _ _ (fun i hi => ?_)
    rw [hrow i hi]
    rfl
  have hlenB : ((d0 :: rest).all (fun fs => fs.length = d0.length)) = true := by
    rw [List.all_eq_true]
    intro f hf
    simp only [decide_eq_true_eq]
    exact hlen f hf
  unfold merge_format3
  simp only [listGet, hlenB, if_true, zip_map_self, hfold, hstats]

theorem statRow_single (q : ℚ) : statRow [q] = [(q : ℝ), 0] := by
  unfold statRow npStd
  have hm : npMean [q] = q := by simp [npMean]
  have hv : npVar [q] = 0 := by simp [npVar, npMean]
  rw [hm, hv]
  simp

theorem recIndex_error {r : Record} {s : String} {e : MergeError}
    (h : recIndex r s = .error e) : e = .pathNotFound := by
  cases r with
  | leaf q =>
    unfold recIndex at h
    injection h with h₂
    exact h₂.symm
  | node entries =>
    have h₂ : (match dictGet? entries s with
        | some v => Except.ok v
        | none => Except.error MergeError.pathNotFound) = Except.error e := h
    cases hl : dictGet? entries s with
    | none =>
      rw [hl] at h₂
      injection h₂ with h₃
      exact h₃.symm
    | some v =>
      rw [hl] at h₂
      simp at h₂

/-! ### Claim theorems -/

/-- C1: for every valid Format0 input — a non-empty list of file mappings
whose key sets are all equal as sets, features absent — `merge_format0`
returns, for each key, exactly the two-element row `[mean, stddev]` of the
concatenation of that key's sample sequences from every file (population
statistics: `npMean` divides by `N`, `npStd` is the square root of the
`N`-divided variance), and returns no header. -/
theorem claim_C1 {K : Type} [DecidableEq K] (d0 : FileFormat0 K) (rest : List (FileFormat0 K))
    (hkeys : ∀ fd ∈ d0 :: rest, setEqB (dictKeys fd) (dictKeys d0) = true) :
    merge_format0 (d0 :: rest) none =
      .ok ((dictKeys d0).map
        (fun k => (k, [((npMean (pooled0 (d0 :: rest) k) : ℚ) : ℝ),
          npStd (pooled0 (d0 :: rest) k)])), none) :=
  merge_format0_spec d0 rest (List.all_eq_true.mpr hkeys)

/-- Witness for C1 at the two files `{0: [1, 2]}` and `{0: [3, 4]}`. -/
theorem claim_C1_witness :
    merge_format0 ([[(0, [1, 2])], [(0, [3, 4])]] : List (FileFormat0 ℤ)) none =
      .ok ((dictKeys ([(0, [1, 2])] : FileFormat0 ℤ)).map
        (fun k => (k, [((npMean (pooled0 ([[(0, [1, 2])], [(0, [3, 4])]]) k) : ℚ) : ℝ),
          npStd (pooled0 ([[(0, [1, 2])], [(0, [3, 4])]]) k)])), none) :=
  claim_C1 [(0, [1, 2])] [[(0, [3, 4])]] (by decide)

/-- C2: the nearest-key resolution used by the Format1 and Format2 mergers
(`pyMin` with key function `|k - ·|`, over a file's ascending sorted key
list) resolves a canonical key `k` to an element minimising the absolute
difference, and on ties the element met first in the stable ascending scan
— the smaller key — wins; the resolution is a function of its inputs, hence
deterministic. -/
theorem claim_C2 (k x : ℤ) (xs : List ℤ) (hs : List.Sorted (· ≤ ·) (x :: xs)) :
    ∃ m, pyMin (fun j => |k - j|) (x :: xs) = .ok m ∧ m ∈ x :: xs ∧
      (∀ y ∈ x :: xs, |k - m| ≤ |k - y|) ∧
      (∀ y ∈ x :: xs, |k - y| = |k - m| → m ≤ y) := by
  refine ⟨minByAux (fun j => |k - j|) x xs, rfl, minByAux_mem _ xs x, ?_, ?_⟩
  · exact fun y hy => minByAux_le (fun j => |k - j|) xs x y hy
  · exact fun y hy hf => minByAux_tie_le (fun j => |k - j|) xs x hs y hy hf

/-- Witness for C2: canonical key 5 against the sorted key list [0, 6]. -/
theorem claim_C2_witness :
    ∃ m, pyMin (fun j => |5 - j|) [0, 6] = .ok m ∧ m ∈ [0, 6] ∧
      (∀ y ∈ [(0 : ℤ), 6], |5 - m| ≤ |5 - y|) ∧
      (∀ y ∈ [(0 : ℤ), 6], |5 - y| = |5 - m| → m ≤ y) :=
  claim_C2 5 0 [6] (by decide)

/-- C5: nested-path walking. `_get_nested` returns the record itself on the
empty path, otherwise indexes the current record with the head segment and
recurses on the tail; `get_nested` splits on commas first; and every failure
of the walk is a `PathNotFoundError`, raised exactly when a segment is
missing or invalid for the record being indexed. -/
theorem claim_C5 :
    (∀ r : Record, getNestedAux r [] = .ok r) ∧
    (∀ (r : Record) (s : String) (p : List String),
      getNestedAux r (s :: p) =
        match recIndex r s with
        | .error e => .error e
        | .ok v => getNestedAux v p) ∧
    (∀ (r : Record) (nested_feature : String),
      get_nested r nested_feature = getNestedAux r (splitComma nested_feature)) ∧
    (∀ (p : List String) (r : Record),
      (∃ v, getNestedAux r p = .ok v) ∨ getNestedAux r p = .error .pathNotFound) := by
  refine ⟨fun r => rfl, fun r s p => rfl, fun r s => rfl, ?_⟩
  intro p
  induction p with
  | nil => exact fun r => Or.inl ⟨r, rfl⟩
  | cons s rest ih =>
    intro r
    have hcons : getNestedAux r (s :: rest) =
        match recIndex r s with
        | .error e => .error e
        | .ok v => getNestedAux v rest := rfl
    cases hr : recIndex r s with
    | error e =>
      right
      simp only [hcons, hr]
      exact congrArg Except.error (recIndex_error hr)
    | ok v =>
      simp only [hcons, hr]
      exact ih v

/-- C6 counterexample: the claim requires formats 0–2 to accept an empty
feature list, but `merge_format0` asserts `features is None`, so supplying
the empty list fails. -/
theorem claim_C6_counterexample :
    merge_format0 ([[(0, [1])]] : List (FileFormat0 ℤ)) (some []) =
      .error .featureNotAllowed := rfl

/-- C6 amended: a merge of formats 0–2 fails with `FeatureNotAllowedError`
whenever a feature list is supplied at all — even the empty list — while an
absent (`none`) list passes the check; Format3 performs no feature-list
validation: an empty feature list is accepted and produces, for every step,
a row containing no statistics (and an empty header list). -/
theorem claim_C6_amended :
    (∀ (K : Type) [DecidableEq K] (data : List (FileFormat0 K)) (fs : List String),
      merge_format0 data (some fs) = .error .featureNotAllowed) ∧
    (∀ (data : List FileFormat1) (fs : List String),
      merge_format1 data (some fs) = .error .featureNotAllowed) ∧
    (∀ (data : List FileFormat2) (fs : List String),
      merge_format2 data (some fs) = .error .featureNotAllowed) ∧
    (∀ (d0 : FileFormat3) (rest : List FileFormat3), (∀ f ∈ rest, f.length = d0.length) →
      merge_format3 (d0 :: rest) [] =
        .ok ((List.range d0.length).map (fun i => (i, [])), some [])) := by
  refine ⟨fun _ _ _ _ => rfl, fun _ _ => rfl, fun _ _ => rfl, ?_⟩
  intro d0 rest hlen
  have h := merge_format3_spec d0 rest []
    (by
      intro f hf
      rcases List.mem_cons.mp hf with h₁ | h₁
      · rw [h₁]
      · exact hlen f h₁)
    (by simp)
    (by simp)
  rw [h]
  rfl

/-- Witness for C6 (amended): one Format3 file with a single step and the
empty feature list merges successfully into an empty row. -/
theorem claim_C6_witness :
    merge_format3 [[Record.leaf 0]] [] = .ok ([(0, [])], some []) := by
  have h := claim_C6_amended.2.2.2 [Record.leaf 0] [] (by simp)
  simpa [List.range_succ] using h

/-- C7: `merge_format0` fails with `KeyMismatchError` if and only if some
file's key set is not equal, as a set, to the first file's key set
(`setEqB` is Python's `set(a) == set(b)`); matching is by key identity only
— no nearest-match resolution is involved in Format0. -/
theorem claim_C7 {K : Type} [DecidableEq K] (d0 : FileFormat0 K)
    (rest : List (FileFormat0 K)) :
    merge_format0 (d0 :: rest) none = .error .keyMismatch ↔
      ∃ fd ∈ d0 :: rest, setEqB (dictKeys fd) (dictKeys d0) = false := by
  constructor
  · intro herr
    by_contra hnx
    push_neg at hnx
    have hall : ((d0 :: rest).all (fun fd => setEqB (dictKeys fd) (dictKeys d0))) = true := by
      rw [List.all_eq_true]
      intro fd hfd
      cases hb : setEqB (dictKeys fd) (dictKeys d0) with
      | true => rfl
      | false => exact absurd hb (hnx fd hfd)
    rw [merge_format0_spec d0 rest hall] at herr
    exact absurd herr (by simp)
  · rintro ⟨fd, hfd, hf⟩
    have hall : ((d0 :: rest).all (fun fd => setEqB (dictKeys fd) (dictKeys d0))) = false := by
      cases hb : (d0 :: rest).all (fun fd => setEqB (dictKeys fd) (dictKeys d0)) with
      | false => rfl
      | true => exact absurd (List.all_eq_true.mp hb fd hfd) (by rw [hf]; simp)
    exact merge_format0_checkFail d0 rest hall

/-- Witness for C7 at the two files `{0: [1]}` and `{1: [2]}` whose key sets
differ. -/
theorem claim_C7_witness :
    merge_format0 ([[(0, [1])], [(1, [2])]] : List (FileFormat0 ℤ)) none =
      .error .keyMismatch :=
  (claim_C7 [(0, [1])] [[(1, [2])]]).mpr ⟨[(1, [2])], by decide, by decide⟩

/-- C10: every merge strategy presupposes at least one input file: each one
reads `data[0]` with no guard, so on the empty input list every merger fails
(with the embedded `IndexError`) before producing any statistics. -/
theorem claim_C10 :
    (∀ (K : Type) [DecidableEq K],
      merge_format0 ([] : List (FileFormat0 K)) none = .error .indexError) ∧
    merge_format1 [] none = .error .indexError ∧
    merge_format2 [] none = .error .indexError ∧
    (∀ features : List String, merge_format3 [] features = .error .indexError) :=
  ⟨fun _ _ => rfl, rfl, rfl, fun _ => rfl⟩

/-- C3: for a Format2 input whose files have equally many keys, with
`n_stats` the length of the first sample of the first file's first canonical
key: the merge fails with `ColumnCountMismatchError` iff some sample of some
key of some file has a different length, and otherwise succeeds with, for
every canonical key, the row of per-column `[mean, std]` pairs concatenated
in column order, of length exactly `2 * n_stats`. -/
theorem claim_C3 (d0 : FileFormat2) (rest : List FileFormat2) (k00 : ℤ) (ktl : List ℤ)
    (sample0 : List ℚ) (rows_tl : List (List ℚ))
    (hk0 : sortKeys (dictKeys d0) = k00 :: ktl)
    (hr0 : dictGet? d0 k00 = some (sample0 :: rows_tl))
    (hcnt : ∀ fd ∈ d0 :: rest, (dictKeys fd).length = (dictKeys d0).length) :
    (merge_format2 (d0 :: rest) none = .error .columnCountMismatch ↔
      ∃ fd ∈ d0 :: rest, ∃ p ∈ fd, ∃ s ∈ p.2, s.length ≠ sample0.length) ∧
    ((∀ fd ∈ d0 :: rest, ∀ p ∈ fd, ∀ s ∈ p.2, s.length = sample0.length) →
      merge_format2 (d0 :: rest) none =
        .ok ((k00 :: ktl).map (fun k => (k, row2 (d0 :: rest) sample0.length k)), none) ∧
      ∀ k : ℤ, (row2 (d0 :: rest) sample0.length k).length = 2 * sample0.length) := by
  have hiff : ((d0 :: rest).all
      (fun fd => fd.all (fun p => p.2.all (fun s => s.length = sample0.length))) = true) ↔
      (∀ fd ∈ d0 :: rest, ∀ p ∈ fd, ∀ s ∈ p.2, s.length = sample0.length) := by
    simp [List.all_eq_true]
  constructor
  · constructor
    · intro herr
      by_contra hnx
      push_neg at hnx
      rw [merge_format2_spec d0 rest k00 ktl sample0 rows_tl hk0 hr0 hcnt
        (hiff.mpr hnx)] at herr
      exact absurd herr (by simp)
    · intro hex
      cases hb : (d0 :: rest).all
          (fun fd => fd.all (fun p => p.2.all (fun s => s.length = sample0.length))) with
      | true =>
        obtain ⟨fd, hfd, p, hp, s, hs, hne⟩ := hex
        exact absurd (hiff.mp hb fd hfd p hp s hs) hne
      | false => exact merge_format2_colFail d0 rest k00 ktl sample0 rows_tl hk0 hr0 hcnt hb
  · intro hall
    refine ⟨merge_format2_spec d0 rest k00 ktl sample0 rows_tl hk0 hr0 hcnt (hiff.mpr hall),
      fun k => ?_⟩
    unfold row2
    rw [flatten_statRows_length (fun i => col2 (d0 :: rest) k i) (List.range sample0.length),
      List.length_range]

/-- Witness for C3 at the single file `{0: [[1, 2]]}` (so `n_stats = 2`). -/
theorem claim_C3_witness :
    (merge_format2 [[((0 : ℤ), [[(1 : ℚ), 2]])]] none = .error .columnCountMismatch ↔
      ∃ fd ∈ [[((0 : ℤ), [[(1 : ℚ), 2]])]], ∃ p ∈ fd, ∃ s ∈ p.2,
        s.length ≠ ([(1 : ℚ), 2]).length) ∧
    ((∀ fd ∈ [[((0 : ℤ), [[(1 : ℚ), 2]])]], ∀ p ∈ fd, ∀ s ∈ p.2,
        s.length = ([(1 : ℚ), 2]).length) →
      merge_format2 [[((0 : ℤ), [[(1 : ℚ), 2]])]] none =
        .ok (([(0 : ℤ)]).map (fun k =>
          (k, row2 [[((0 : ℤ), [[(1 : ℚ), 2]])]] ([(1 : ℚ), 2]).length k)), none) ∧
      ∀ k : ℤ, (row2 [[((0 : ℤ), [[(1 : ℚ), 2]])]] ([(1 : ℚ), 2]).length k).length =
        2 * ([(1 : ℚ), 2]).length) :=
  claim_C3 [((0 : ℤ), [[(1 : ℚ), 2]])] [] 0 [] [(1 : ℚ), 2] [] (by decide) (by decide)
    (by decide)

/-- C4 counterexample: the two feature paths `"a,x"` and `"b,x"` share the
display name `"x"`; `merge_format3` keys its intermediate store by display
name, so the later feature overwrites the earlier one and the output row
duplicates the second feature's statistics (`[1, 0, 1, 0]`) instead of the
claimed per-feature concatenation `row3 … = [0, 0, 1, 0]`. -/
theorem claim_C4_counterexample :
    merge_format3 [[Record.node [("a", Record.node [("x", Record.leaf 0)]),
        ("b", Record.node [("x", Record.leaf 1)])]]] ["a,x", "b,x"] =
      .ok ([(0, [(1 : ℝ), 0, 1, 0])], some ["x", "x"]) ∧
    row3 [[Record.node [("a", Record.node [("x", Record.leaf 0)]),
        ("b", Record.node [("x", Record.leaf 1)])]]] ["a,x", "b,x"] 0 =
      [(0 : ℝ), 0, 1, 0] ∧
    ((1 : ℝ) ≠ 0) := by
  refine ⟨?_, ?_, one_ne_zero⟩
  · have hA : merge_format3 [[Record.node [("a", Record.node [("x", Record.leaf 0)]),
        ("b", Record.node [("x", Record.leaf 1)])]]] ["a,x", "b,x"] =
        .ok ([(0, statRow [(1 : ℚ)] ++ (statRow [(1 : ℚ)] ++ []))], some ["x", "x"]) := rfl
    rw [hA, statRow_single]
    norm_num
  · have hB : row3 [[Record.node [("a", Record.node [("x", Record.leaf 0)]),
        ("b", Record.node [("x", Record.leaf 1)])]]] ["a,x", "b,x"] 0 =
        statRow [(0 : ℚ)] ++ (statRow [(1 : ℚ)] ++ []) := rfl
    rw [hB, statRow_single, statRow_single]
    norm_num

/-- C4 amended: the claim holds once the requested feature paths have
pairwise distinct display names: the header is the ordered display-name
list, and every step's row is the per-feature `[mean, std]` concatenation,
of length `2 * n_features`. -/
theorem claim_C4_amended (d0 : FileFormat3) (rest : List FileFormat3) (features : List String)
    (hne : features ≠ [])
    (hlen : ∀ f ∈ d0 :: rest, f.length = d0.length)
    (hnodup : (features.map lastSeg).Nodup)
    (hres : ∀ ft ∈ features, ∀ f ∈ d0 :: rest, ∀ i ∈ List.range d0.length,
      isLeafAt f i ft = true) :
    merge_format3 (d0 :: rest) features =
      .ok ((List.range d0.length).map (fun i => (i, row3 (d0 :: rest) features i)),
        some (features.map lastSeg)) ∧
    (features.map lastSeg).length = features.length ∧
    (∀ i : ℕ, (row3 (d0 :: rest) features i).length = 2 * features.length) := by
  refine ⟨merge_format3_spec d0 rest features hlen hnodup hres, by simp, fun i => ?_⟩
  unfold row3
  rw [flatten_statRows_length (fun ft => fvals (d0 :: rest) ft i) features]

/-- Witness for C4 (amended) at one file, one step, one feature `"a"`. -/
theorem claim_C4_witness :
    merge_format3 [[Record.node [("a", Record.leaf 1)]]] ["a"] =
      .ok ((List.range ([[Record.node [("a", Record.leaf 1)]]].headD []).length).map
        (fun i => (i, row3 [[Record.node [("a", Record.leaf 1)]]] ["a"] i)),
        some (["a"].map lastSeg)) ∧
    ((["a"].map lastSeg)).length = (["a"] : List String).length ∧
    (∀ i : ℕ, (row3 [[Record.node [("a", Record.leaf 1)]]] ["a"] i).length =
      2 * (["a"] : List String).length) :=
  claim_C4_amended [Record.node [("a", Record.leaf 1)]] [] ["a"] (by decide) (by decide)
    (by decide) (by decide)

/-- C8: merging the Format1 files `{0: [1], 5: [2]}` and `{0: [3], 6: [4]}`
uses the canonical keys `[0, 5]`; canonical key 5 nearest-matches local key 6
in the second file, so its pooled samples are `[2, 4]`, giving mean 3 and
population standard deviation 1 (key 0 pools `[1, 3]`: mean 2, std 1). -/
theorem claim_C8 :
    sortKeys (dictKeys ([(0, [1]), (5, [2])] : FileFormat1)) = [0, 5] ∧
    nearest (sortKeys (dictKeys ([(0, [3]), (6, [4])] : FileFormat1))) 5 = 6 ∧
    pooled1 [[(0, [1]), (5, [2])], [(0, [3]), (6, [4])]] 5 = [2, 4] ∧
    npMean [2, 4] = 3 ∧ npStd [2, 4] = 1 ∧
    merge_format1 [[(0, [1]), (5, [2])], [(0, [3]), (6, [4])]] none =
      .ok ([(0, [(2 : ℝ), 1]), (5, [(3 : ℝ), 1])], none) := by
  have hv24 : npVar [2, 4] = 1 := by norm_num [npVar, npMean]
  have hstd24 : npStd [2, 4] = 1 := by
    unfold npStd
    rw [hv24]
    norm_num
  have h13 : statRow [(1 : ℚ), 3] = [(2 : ℝ), 1] := by
    unfold statRow npStd
    rw [show npMean [(1 : ℚ), 3] = 2 from by norm_num [npMean],
      show npVar [(1 : ℚ), 3] = 1 from by norm_num [npVar, npMean]]
    norm_num
  have h24 : statRow [(2 : ℚ), 4] = [(3 : ℝ), 1] := by
    unfold statRow npStd
    rw [show npMean [(2 : ℚ), 4] = 3 from by norm_num [npMean], hv24]
    norm_num
  refine ⟨by decide, by decide, by decide, by norm_num [npMean], hstd24, ?_⟩
  rw [merge_format1_spec [(0, [1]), (5, [2])] [[(0, [3]), (6, [4])]] (by decide)]
  rw [show sortKeys (dictKeys ([(0, [1]), (5, [2])] : FileFormat1)) = [0, 5] from by decide]
  simp only [List.map_cons, List.map_nil]
  rw [show pooled1 [[(0, [1]), (5, [2])], [(0, [3]), (6, [4])]] 0 = [1, 3] from by decide]
  rw [show pooled1 [[(0, [1]), (5, [2])], [(0, [3]), (6, [4])]] 5 = [2, 4] from by decide]
  rw [h13, h24]

/-- C9: permuting the order of the Format0 input files leaves the returned
statistics mapping unchanged — every key looks up the same `[mean, std]` row,
because each key's pooled sample list is permuted, and population mean and
standard deviation are permutation invariant. -/
theorem claim_C9 {K : Type} [DecidableEq K] (d0 : FileFormat0 K)
    (rest data2 : List (FileFormat0 K))
    (hperm : (d0 :: rest).Perm data2)
    (hkeys : ∀ fd ∈ d0 :: rest, setEqB (dictKeys fd) (dictKeys d0) = true) :
    ∃ s₁ s₂, merge_format0 (d0 :: rest) none = .ok (s₁, none) ∧
      merge_format0 data2 none = .ok (s₂, none) ∧
      ∀ k : K, dictGet? s₁ k = dictGet? s₂ k := by
  cases data2 with
  | nil => exact absurd hperm.length_eq (by simp)
  | cons e0 erest =>
    have hiff : ∀ fd ∈ d0 :: rest, ∀ k : K, k ∈ dictKeys fd ↔ k ∈ dictKeys d0 := by
      intro fd hfd k
      have h := (setEqB_iff _ _).mp (hkeys fd hfd)
      exact ⟨fun hk => h.1 k hk, fun hk => h.2 k hk⟩
    have hmem2 : ∀ fd ∈ e0 :: erest, fd ∈ d0 :: rest := fun fd hfd => hperm.mem_iff.mpr hfd
    have he0 : e0 ∈ d0 :: rest := hmem2 e0 (List.mem_cons_self e0 erest)
    have hiff2 : ∀ fd ∈ e0 :: erest, ∀ k : K, k ∈ dictKeys fd ↔ k ∈ dictKeys e0 := by
      intro fd hfd k
      exact (hiff fd (hmem2 fd hfd) k).trans (hiff e0 he0 k).symm
    have hkeys2 : ∀ fd ∈ e0 :: erest, setEqB (dictKeys fd) (dictKeys e0) = true := by
      intro fd hfd
      exact (setEqB_iff _ _).mpr
        ⟨fun k hk => (hiff2 fd hfd k).mp hk, fun k hk => (hiff2 fd hfd k).mpr hk⟩
    refine ⟨_, _, merge_format0_spec d0 rest (List.all_eq_true.mpr hkeys),
      merge_format0_spec e0 erest (List.all_eq_true.mpr hkeys2), fun k => ?_⟩
    rw [dictGet?_map_self (fun k => statRow (pooled0 (d0 :: rest) k)) (dictKeys d0) k,
      dictGet?_map_self (fun k => statRow (pooled0 (e0 :: erest) k)) (dictKeys e0) k]
    have hpool : (pooled0 (d0 :: rest) k).Perm (pooled0 (e0 :: erest) k) :=
      (hperm.map (fun fd => (dictGet? fd k).getD [])).flatten
    by_cases hk : k ∈ dictKeys d0
    · rw [if_pos hk, if_pos ((hiff e0 he0 k).mpr hk), statRow_perm hpool]
    · rw [if_neg hk, if_neg (fun hk₂ => hk ((hiff e0 he0 k).mp hk₂))]

/-- Witness for C9: the two single-key files `{0: [1]}` and `{0: [2]}`,
merged in both orders. -/
theorem claim_C9_witness :
    ∃ s₁ s₂,
      merge_format0 ([[(0, [1])], [(0, [2])]] : List (FileFormat0 ℤ)) none = .ok (s₁, none) ∧
      merge_format0 ([[(0, [2])], [(0, [1])]] : List (FileFormat0 ℤ)) none = .ok (s₂, none) ∧
      ∀ k : ℤ, dictGet? s₁ k = dictGet? s₂ k :=
  claim_C9 [(0, [1])] [[(0, [2])]] [[(0, [2])], [(0, [1])]] (by decide) (by decide)

end MergeLogs
